import Mathlib

/-!
Shallow embedding of the Analytics & Recurrence Engine of
`src/FSD_project.py` (a task manager with time analytics).

Modelling conventions:
* ISO-8601 timestamp strings are modelled by their parse result:
  `TimeStr.valid t` stands for a well-formed string denoting `t` seconds of
  naive local time, `TimeStr.malformed s` for any string that
  `datetime.fromisoformat` rejects.  On naive datetimes Python's
  `timedelta(days=1)` is exactly 86400 seconds and `timedelta(weeks=1)` is
  604800 seconds, so adding a day or a week is integer addition here.
* sqlite `REAL` values and Python floats are modelled by `ℚ`; the
  one-decimal rounding of Python's `round` and pandas `.round(1)`
  (round half to even) is `round1`, stated exactly on rationals.
* The sqlite store is a record of the two tables as lists together with
  the `AUTOINCREMENT` counters, which start at 1.
* The Streamlit session state (`pom_task`, `pom_start`) is the `State`
  record around the store; an uncaught Python exception is an `Err` value.
-/

set_option allowUnsafeReducibility true
attribute [local semireducible] Rat.add Rat.mul Rat.sub Rat.div Rat.inv

namespace FSD

/-- A timestamp string, modelled by its `datetime.fromisoformat` parse. -/
inductive TimeStr
  | valid (t : ℤ)
  | malformed (s : String)
deriving DecidableEq, Repr

/-- `datetime.fromisoformat`, returning `none` where Python raises. -/
def fromisoformat : TimeStr → Option ℤ
  | .valid t => some t
  | .malformed _ => none

/-- A row of the `tasks` table (source lines 21-35). -/
structure Task where
  id : ℕ
  title : String
  description : String
  category : String
  priority : String
  status : String
  created_at : TimeStr
  due_at : Option TimeStr
  completed_at : Option TimeStr
  predicted_minutes : ℚ
  recurrence : String
deriving DecidableEq, Repr

/-- A row of the `work_sessions` table (source lines 37-46). -/
structure WorkSession where
  id : ℕ
  task_id : ℕ
  start_time : TimeStr
  end_time : TimeStr
  duration_minutes : ℚ
deriving DecidableEq, Repr

/-- The sqlite database: both tables plus the AUTOINCREMENT counters. -/
structure Store where
  tasks : List Task
  sessions : List WorkSession
  nextTaskId : ℕ
  nextSessionId : ℕ
deriving DecidableEq, Repr

def Store.empty : Store := ⟨[], [], 1, 1⟩

/-- Uncaught Python exceptions, by the operation that raises them. -/
inductive Err
  | notFound
  | validation
  | parseFail
deriving DecidableEq, Repr

/-- `SELECT * FROM tasks WHERE id=?` (at most one row: `id` is the key). -/
def lookupTask (ts : List Task) (i : ℕ) : Option Task :=
  ts.find? (fun t => t.id = i)

/-- The `t.category` column of the LEFT JOIN in `get_sessions`
(source lines 57-61): `none` when the owning task is absent (SQL NULL). -/
def joinedCategory (st : Store) (w : WorkSession) : Option String :=
  (lookupTask st.tasks w.task_id).map (fun t => t.category)

/-- Durations of the joined sessions whose task category equals `cat`:
one group of `df.groupby("category")["duration_minutes"]`. -/
def catSessions (st : Store) (cat : String) : List ℚ :=
  (st.sessions.filter (fun w => joinedCategory st w = some cat)).map
    (fun w => w.duration_minutes)

/-- The distinct keys of `df.groupby("category")`; pandas drops the NULL
(missing-task) rows, and keeps the empty string as an ordinary key. -/
def categories (st : Store) : List String :=
  (st.sessions.filterMap (joinedCategory st)).dedup

/-- Arithmetic mean of a list, as `pandas.Series.mean`. -/
def mean (l : List ℚ) : ℚ := l.sum / l.length

/-- Round half to even, the rounding of Python `round` and pandas, stated
exactly on rationals. -/
def rhe (q : ℚ) : ℤ :=
  if q - ⌊q⌋ < 1/2 then ⌊q⌋
  else if 1/2 < q - ⌊q⌋ then ⌊q⌋ + 1
  else if ⌊q⌋ % 2 = 0 then ⌊q⌋ else ⌊q⌋ + 1

/-- `round(x, 1)`: round half to even at one decimal place. -/
def round1 (q : ℚ) : ℚ := (rhe (q * 10) : ℚ) / 10

/-- `predict_time` (source lines 67-71): category mean if the category has
history, else mean of the per-category means, else the 30-minute default. -/
def predict_time (st : Store) (cat : String) : ℚ :=
  if cat ∈ categories st then round1 (mean (catSessions st cat))
  else if categories st ≠ [] then
    round1 (mean ((categories st).map (fun c => mean (catSessions st c))))
  else 30

/-- `recur_create` (source lines 73-82): spawn the successor of a completed
recurring task; silently no-op on an absent or unparseable `due_at`. -/
def recur_create (st : Store) (old : Task) (ty : String) (now : ℤ) : Store :=
  match old.due_at with
  | none => st
  | some ds =>
    match fromisoformat ds with
    | none => st
    | some t =>
      let nd := t + (if ty = "Daily" then 86400
                     else if ty = "Weekly" then 604800 else 0)
      { st with
        tasks := st.tasks ++ [{
          id := st.nextTaskId, title := old.title,
          description := old.description, category := old.category,
          priority := old.priority, status := "Pending",
          created_at := .valid now, due_at := some (.valid nd),
          completed_at := none,
          predicted_minutes := old.predicted_minutes, recurrence := ty }],
        nextTaskId := st.nextTaskId + 1 }

/-- The row update of `UPDATE tasks SET completed_at=?,status='Completed'
WHERE id=?` (source line 86), applied to one row. -/
def updTask (i : ℕ) (now : ℤ) (t : Task) : Task :=
  if t.id = i then
    { t with completed_at := some (.valid now), status := "Completed" }
  else t

/-- The status update plus the optional manual session insert of
`complete` (source lines 86-91): the session is logged only when `mins`
is present, truthy and positive. -/
def completeWrites (st : Store) (task_id : ℕ) (mins : Option ℚ) (now : ℤ) :
    Store :=
  let st1 := { st with tasks := st.tasks.map (updTask task_id now) }
  match mins with
  | some m =>
    if 0 < m then
      { st1 with
        sessions := st1.sessions ++
          [⟨st1.nextSessionId, task_id, .valid now, .valid now, m⟩],
        nextSessionId := st1.nextSessionId + 1 }
    else st1
  | none => st1

/-- `complete` (source lines 84-92).  The `.iloc[0]` lookup on a missing id
raises before any write; that failure is the `notFound` error.  The row
fetched before the update feeds the recurrence spawn. -/
def complete (st : Store) (task_id : ℕ) (mins : Option ℚ) (now : ℤ) :
    Except Err Store :=
  match lookupTask st.tasks task_id with
  | none => .error .notFound
  | some row =>
    let st2 := completeWrites st task_id mins now
    .ok (if row.recurrence ≠ "None" then recur_create st2 row row.recurrence now
         else st2)

/-- Engine state: the store plus the Streamlit pomodoro session state. -/
structure State where
  store : Store
  pomTask : Option ℕ
  pomStart : Option TimeStr
deriving DecidableEq, Repr

def initState : State := ⟨Store.empty, none, none⟩

/-- `pom_start` (source lines 101-103): unconditionally record the task id
and the current time. -/
def pom_start (s : State) (i : ℕ) (now : ℤ) : State :=
  { s with pomTask := some i, pomStart := some (.valid now) }

/-- Python truthiness of `pom_task` (`None` and `0` are falsy). -/
def truthyTask : Option ℕ → Bool
  | none => false
  | some n => n != 0

/-- Python truthiness of `pom_start` (`None` and `""` are falsy). -/
def truthyStart : Option TimeStr → Bool
  | none => false
  | some (.valid _) => true
  | some (.malformed s) => s != ""

/-- `pom_stop` (source lines 105-113): clear the timer fields first, then,
when saving an active timer, append a session with the floored duration.
The second component records an exception raised after the fields were
already cleared (`fromisoformat` on a malformed stored start). -/
def pom_stop (s : State) (save : Bool) (now : ℤ) : State × Option Err :=
  let i0 := s.pomTask
  let start := s.pomStart
  let s1 : State := { s with pomTask := none, pomStart := none }
  if !(save && truthyTask i0 && truthyStart start) then (s1, none)
  else
    match i0, start with
    | some i, some ts =>
      match fromisoformat ts with
      | none => (s1, some .parseFail)
      | some t0 =>
        ({ s1 with store := { s1.store with
            sessions := s1.store.sessions ++
              [⟨s1.store.nextSessionId, i, ts, .valid now,
                max 1 (((now - t0 : ℤ) : ℚ) / 60)⟩],
            nextSessionId := s1.store.nextSessionId + 1 } }, none)
    | _, _ => (s1, none)

/-- Python `str.strip()`: drop leading and trailing whitespace. -/
def strip (s : String) : String :=
  ⟨((s.toList.dropWhile Char.isWhitespace).reverse.dropWhile
      Char.isWhitespace).reverse⟩

/-- The new-task form of tab 1 (source lines 151-176): the estimator is
consulted only for a non-blank category, the inserted row stores the
stripped fields, and an all-whitespace title is a validation error. -/
def new_task (st : Store) (title desc cat priority : String) (due : ℤ)
    (rec : String) (now : ℤ) : Except Err Store :=
  let pred : ℚ := if strip cat ≠ "" then predict_time st cat else 30
  if strip title = "" then .error .validation
  else .ok { st with
    tasks := st.tasks ++ [{
      id := st.nextTaskId, title := strip title, description := strip desc,
      category := strip cat, priority := priority, status := "Pending",
      created_at := .valid now, due_at := some (.valid due),
      completed_at := none, predicted_minutes := pred, recurrence := rec }],
    nextTaskId := st.nextTaskId + 1 }

/-- Calendar date of a session start (`.dt.date`), as the floored day
number; only used where the start time is known to parse. -/
def sDate (w : WorkSession) : ℤ :=
  Int.fdiv ((fromisoformat w.start_time).getD 0) 86400

/-- Calendar date of a session start, `none` when the string is malformed. -/
def sessionDate (w : WorkSession) : Option ℤ :=
  (fromisoformat w.start_time).map (fun t => Int.fdiv t 86400)

/-- Total minutes logged on date `d`: one group of the date groupby sum. -/
def dayTotal (st : Store) (d : ℤ) : ℚ :=
  ((st.sessions.filter (fun w => sDate w = d)).map
    (fun w => w.duration_minutes)).sum

/-- The daily score formula `(m/240*100).clip(upper=120).round(1)`. -/
def score (m : ℚ) : ℚ := round1 (min (m / 240 * 100) 120)

/-- The rows of `daily_scores`: one `(date, minutes, score)` row per
distinct session date, most recent date first. -/
def dailyRows (st : Store) : List (ℤ × ℚ × ℚ) :=
  (((st.sessions.map sDate).dedup).insertionSort (fun a b => b ≤ a)).map
    (fun d => (d, dayTotal st d, score (dayTotal st d)))

/-- `daily_scores` (source lines 118-124).  `pd.to_datetime` raises on any
unparseable start time, hence the `none` branch. -/
def daily_scores (st : Store) : Option (List (ℤ × ℚ × ℚ)) :=
  if st.sessions.isEmpty then some []
  else if st.sessions.all (fun w => (fromisoformat w.start_time).isSome) then
    some (dailyRows st)
  else none

/-- The engine operations the presentation layer can invoke. -/
inductive Op
  | newTask (title desc cat priority : String) (due : ℤ) (rec : String)
  | completeTask (i : ℕ) (mins : Option ℚ)
  | pomStart (i : ℕ)
  | pomStop (save : Bool)

/-- One engine call at wall-clock time `now`; a raised exception leaves
whatever state the call had already written. -/
def applyOp (s : State) (op : Op) (now : ℤ) : State :=
  match op with
  | .newTask t d c p due r =>
    match new_task s.store t d c p due r now with
    | .ok st => { s with store := st }
    | .error _ => s
  | .completeTask i m =>
    match complete s.store i m now with
    | .ok st => { s with store := st }
    | .error _ => s
  | .pomStart i => pom_start s i now
  | .pomStop sv => (pom_stop s sv now).1

/-- States reachable from process start by engine operations. -/
inductive Reachable : State → Prop
  | init : Reachable initState
  | step (s : State) (op : Op) (now : ℤ) :
      Reachable s → Reachable (applyOp s op now)

/-- A state whose timer is already running on task 1 (started at time 0). -/
def c1state : State := pom_start initState 1 0

/-- Fixture: a task to recur from. -/
def c4task : Task :=
  ⟨1, "Standup", "", "Work", "High", "Completed", .valid 0,
   some (.valid 1704128400), some (.valid 1704130000), 30, "Daily"⟩

/-- Fixture: a completed Weekly task whose due date string is malformed. -/
def c5task : Task :=
  ⟨1, "Review", "", "Work", "High", "Pending", .valid 0,
   some (.malformed "not-a-date"), none, 30, "Weekly"⟩

def c5store : Store := ⟨[c5task], [], 2, 1⟩

/-- Fixture: one task with category `"W"` and one 60-minute session. -/
def c3store : Store :=
  ⟨[⟨1, "Read", "", "W", "High", "Pending", .valid 0, none, none, 30, "None"⟩],
   [⟨1, 1, .valid 0, .valid 3600, 60⟩], 2, 2⟩

/-- Fixture: 480 minutes logged on day 0 and 120 minutes on day 1. -/
def c6store : Store :=
  ⟨[], [⟨1, 1, .valid 0, .valid 60, 480⟩, ⟨2, 1, .valid 86400, .valid 86460, 120⟩],
   1, 3⟩

/-- Fixture: a running timer on task 1 started at time 0. -/
def c7state : State := ⟨Store.empty, some 1, some (.valid 0)⟩

/-- Fixture: session history under category `"Deep"` (mean 100 minutes). -/
def c10store : Store :=
  ⟨[⟨1, "Focus", "", "Deep", "High", "Pending", .valid 0, none, none, 30, "None"⟩],
   [⟨1, 1, .valid 0, .valid 6000, 100⟩], 2, 2⟩

/-- The store after creating the "Writing" task of the round-trip scenario. -/
def rtSt1 : Store :=
  (new_task Store.empty "Essay" "" "Writing" "High" 0 "None" 0).toOption.getD
    Store.empty

/-- The store after completing that task with 60 logged minutes. -/
def rtSt2 : Store := (complete rtSt1 1 (some 60) 5).toOption.getD Store.empty

/-- A reachable state holding one completed task. -/
def c8state : State :=
  applyOp (applyOp initState (.newTask "A" "" "" "High" 0 "None") 0)
    (.completeTask 1 none) 5

/-- The per-task part of the status invariant: the status column holds one
of the two literals written by the engine, and `completed_at` is non-NULL
exactly on completed rows. -/
def TaskOk (t : Task) : Prop :=
  (t.status = "Pending" ∨ t.status = "Completed") ∧
  (t.completed_at.isSome ↔ t.status = "Completed")

/-- The store invariant the engine maintains: every row satisfies
`TaskOk`, ids are below the AUTOINCREMENT counter, and ids are distinct. -/
def Inv (st : Store) : Prop :=
  (∀ t ∈ st.tasks, TaskOk t) ∧
  (∀ t ∈ st.tasks, t.id < st.nextTaskId) ∧
  (st.tasks.map (fun t => t.id)).Nodup

instance : IsTotal ℤ (fun a b => b ≤ a) := ⟨fun a b => le_total b a⟩

instance : IsTrans ℤ (fun a b => b ≤ a) :=
  ⟨fun _ _ _ hab hbc => le_trans hbc hab⟩

/-! ## Theorems -/

/-- C1, counterexample: with the timer already active on task 1, calling
`pom_start` again does not fail and does not leave the Timer State
unchanged — it overwrites it with task 2 and the new start time. -/
theorem pom_start_conflict_counterexample :
    c1state.pomTask = some 1 ∧ c1state.pomStart = some (.valid 0) ∧
    (pom_start c1state 2 10).pomTask = some 2 ∧
    (pom_start c1state 2 10).pomStart = some (.valid 10) := by
  refine ⟨rfl, rfl, rfl, rfl⟩

/-- C1, amended: `pom_start` never fails; it unconditionally sets the
Timer State to the given task id and the current time, silently
overwriting any already-active timer, and leaves the store untouched. -/
theorem pom_start_overwrites (s : State) (i : ℕ) (now : ℤ) :
    (pom_start s i now).pomTask = some i ∧
    (pom_start s i now).pomStart = some (.valid now) ∧
    (pom_start s i now).store = s.store :=
  ⟨rfl, rfl, rfl⟩

/-- C2: when `task_id` matches no task in the store, `complete` fails with
the not-found error and the whole engine state is unchanged. -/
theorem complete_missing_id (s : State) (i : ℕ) (m : Option ℚ) (now : ℤ)
    (h : ∀ t ∈ s.store.tasks, t.id ≠ i) :
    complete s.store i m now = .error .notFound ∧
    applyOp s (.completeTask i m) now = s := by
  have hl : lookupTask s.store.tasks i = none := by
    apply List.find?_eq_none.mpr
    intro t ht
    simpa using h t ht
  constructor
  · simp [complete, hl]
  · simp [applyOp, complete, hl]

/-- C2 witness at the empty store. -/
theorem complete_missing_id_witness :
    complete initState.store 1 none 0 = .error .notFound ∧
    applyOp initState (.completeTask 1 none) 0 = initState :=
  complete_missing_id initState 1 none 0 (by intro t ht; simp [initState, Store.empty] at ht)

/-- C4: for a source task with Daily or Weekly recurrence and a parseable
due date, `recur_create` appends exactly one new task copying
`title, description, category, priority, predicted_minutes, recurrence`,
due one day (Daily) or seven days (Weekly) after the source due date,
with Pending status, fresh creation time and no completion time. -/
theorem recur_create_spawns (st : Store) (old : Task) (now t : ℤ)
    (ds : TimeStr) (hdue : old.due_at = some ds)
    (hp : fromisoformat ds = some t)
    (hty : old.recurrence = "Daily" ∨ old.recurrence = "Weekly") :
    recur_create st old old.recurrence now = { st with
      tasks := st.tasks ++ [{
        id := st.nextTaskId, title := old.title,
        description := old.description, category := old.category,
        priority := old.priority, status := "Pending",
        created_at := .valid now,
        due_at := some (.valid
          (t + (if old.recurrence = "Daily" then 86400 else 604800))),
        completed_at := none,
        predicted_minutes := old.predicted_minutes,
        recurrence := old.recurrence }],
      nextTaskId := st.nextTaskId + 1 } := by
  rcases hty with h | h <;> simp [recur_create, hdue, hp, h]

/-- C4 witness: a concrete Daily task due at `2024-01-01T17:00:00`
(modelled as 1704128400 s) spawns a successor due exactly one day later. -/
theorem recur_create_spawns_witness :
    recur_create Store.empty c4task c4task.recurrence 7 = { Store.empty with
      tasks := Store.empty.tasks ++ [{
        id := Store.empty.nextTaskId, title := c4task.title,
        description := c4task.description, category := c4task.category,
        priority := c4task.priority, status := "Pending",
        created_at := .valid 7,
        due_at := some (.valid
          (1704128400 + (if c4task.recurrence = "Daily" then 86400 else 604800))),
        completed_at := none,
        predicted_minutes := c4task.predicted_minutes,
        recurrence := c4task.recurrence }],
      nextTaskId := Store.empty.nextTaskId + 1 } :=
  recur_create_spawns Store.empty c4task 7 1704128400 (.valid 1704128400)
    rfl rfl (Or.inl rfl)

/-- An absent or unparseable due date makes `recur_create` a silent no-op. -/
theorem recur_create_bad (st : Store) (old : Task) (ty : String) (now : ℤ)
    (hbad : old.due_at = none ∨
      ∃ ds, old.due_at = some ds ∧ fromisoformat ds = none) :
    recur_create st old ty now = st := by
  rcases hbad with h | ⟨ds, h, hp⟩
  · simp [recur_create, h]
  · simp [recur_create, h, hp]

theorem updTask_id (i : ℕ) (now : ℤ) (t : Task) : (updTask i now t).id = t.id := by
  unfold updTask; split <;> rfl

theorem map_updTask_ids (i : ℕ) (now : ℤ) (l : List Task) :
    (l.map (updTask i now)).map (fun t => t.id) = l.map (fun t => t.id) := by
  rw [List.map_map]
  exact List.map_congr_left (fun t _ => updTask_id i now t)

theorem completeWrites_shape (st : Store) (i : ℕ) (m : Option ℚ) (now : ℤ) :
    ∃ ss k, completeWrites st i m now =
      ⟨st.tasks.map (updTask i now), ss, st.nextTaskId, k⟩ := by
  unfold completeWrites
  rcases m with _ | q
  · exact ⟨st.sessions, st.nextSessionId, rfl⟩
  · by_cases hq : 0 < q
    · exact ⟨st.sessions ++ [⟨st.nextSessionId, i, .valid now, .valid now, q⟩],
        st.nextSessionId + 1, by simp [hq]⟩
    · exact ⟨st.sessions, st.nextSessionId, by simp [hq]⟩

/-- C5: completing a recurring task whose due date is absent or malformed
succeeds (no error reaches the caller), marks the task Completed, and
creates no successor task: the task-id column is unchanged. -/
theorem complete_bad_due (st : Store) (i : ℕ) (old : Task) (m : Option ℚ)
    (now : ℤ)
    (hlook : lookupTask st.tasks i = some old)
    (hrec : old.recurrence ≠ "None")
    (hbad : old.due_at = none ∨
      ∃ ds, old.due_at = some ds ∧ fromisoformat ds = none) :
    ∃ st', complete st i m now = .ok st' ∧
      st'.tasks.map (fun t => t.id) = st.tasks.map (fun t => t.id) ∧
      ∀ t' ∈ st'.tasks, t'.id = i →
        t'.status = "Completed" ∧ t'.completed_at = some (.valid now) := by
  have hmain : ∀ l : List Task, l = st.tasks.map (updTask i now) →
      l.map (fun t => t.id) = st.tasks.map (fun t => t.id) ∧
      ∀ t' ∈ l, t'.id = i →
        t'.status = "Completed" ∧ t'.completed_at = some (.valid now) := by
    rintro l rfl
    refine ⟨map_updTask_ids i now st.tasks, ?_⟩
    intro t' ht' hid
    rcases List.mem_map.mp ht' with ⟨u, _, rfl⟩
    by_cases h : u.id = i
    · simp [updTask, h]
    · rw [updTask_id] at hid
      exact absurd hid h
  simp only [complete, hlook]
  rw [if_pos hrec, recur_create_bad _ _ _ _ hbad]
  obtain ⟨ss, k, hw⟩ := completeWrites_shape st i m now
  rw [hw]
  exact ⟨_, rfl, hmain _ rfl⟩

/-- C5 witness: a Weekly task with a malformed due date completes without
error and spawns nothing. -/
theorem complete_bad_due_witness :
    ∃ st', complete c5store 1 (some 25) 9 = .ok st' ∧
      st'.tasks.map (fun t => t.id) = c5store.tasks.map (fun t => t.id) ∧
      ∀ t' ∈ st'.tasks, t'.id = 1 →
        t'.status = "Completed" ∧ t'.completed_at = some (.valid 9) :=
  complete_bad_due c5store 1 c5task (some 25) 9 (by decide)
    (by decide) (Or.inr ⟨.malformed "not-a-date", rfl, rfl⟩)

/-- C10: the new-task form with a blank (empty or all-whitespace) category
inserts the task with the fixed 30-minute estimate, whatever session
history the store holds — the estimator is not consulted. -/
theorem new_task_blank_category (st : Store) (title desc cat priority : String)
    (due now : ℤ) (rec : String)
    (hcat : strip cat = "") (htitle : ¬ strip title = "") :
    new_task st title desc cat priority due rec now = .ok { st with
      tasks := st.tasks ++ [{
        id := st.nextTaskId, title := strip title, description := strip desc,
        category := strip cat, priority := priority, status := "Pending",
        created_at := .valid now, due_at := some (.valid due),
        completed_at := none, predicted_minutes := 30, recurrence := rec }],
      nextTaskId := st.nextTaskId + 1 } := by
  simp [new_task, hcat, htitle]

/-- C10 witness: with 100-minute history under category `"Deep"` (so the
estimator would say 100), a whitespace-only category still yields 30. -/
theorem new_task_blank_category_witness :
    new_task c10store "Plan" "" "   " "Low" 0 "None" 1 = .ok { c10store with
      tasks := c10store.tasks ++ [{
        id := c10store.nextTaskId, title := strip "Plan",
        description := strip "", category := strip "   ", priority := "Low",
        status := "Pending", created_at := .valid 1,
        due_at := some (.valid 0), completed_at := none,
        predicted_minutes := 30, recurrence := "None" }],
      nextTaskId := c10store.nextTaskId + 1 } :=
  new_task_blank_category c10store "Plan" "" "   " "Low" 0 1 "None"
    (by decide) (by decide)

theorem mem_categories_iff (st : Store) (cat : String) :
    cat ∈ categories st ↔ catSessions st cat ≠ [] := by
  simp only [categories, List.mem_dedup, List.mem_filterMap, catSessions, Ne,
    List.map_eq_nil_iff, List.filter_eq_nil_iff]
  push_neg
  simp

/-- C3: `predict_time` returns the rounded mean of the sessions owned by
tasks of the queried category when any exist; otherwise, when some
category has history, the rounded unweighted mean of the per-category
means over the distinct categories; otherwise the fixed default 30. -/
theorem predict_time_spec (st : Store) (cat : String) :
    (catSessions st cat ≠ [] →
      predict_time st cat = round1 (mean (catSessions st cat))) ∧
    (catSessions st cat = [] → categories st ≠ [] →
      predict_time st cat =
        round1 (mean ((categories st).map (fun c => mean (catSessions st c))))) ∧
    (categories st = [] → predict_time st cat = 30) := by
  have h := mem_categories_iff st cat
  refine ⟨?_, ?_, ?_⟩
  · intro hne
    rw [predict_time, if_pos (h.mpr hne)]
  · intro hnil hcats
    rw [predict_time, if_neg (fun hmem => h.mp hmem hnil), if_pos hcats]
  · intro hc
    have h1 : cat ∉ categories st := by rw [hc]; exact List.not_mem_nil cat
    rw [predict_time, if_neg h1, if_neg (fun hne => hne hc)]

/-- C3 witness: with a single 60-minute session under category `"W"`,
the first branch applies. -/
theorem predict_time_spec_witness :
    predict_time c3store "W" = round1 (mean (catSessions c3store "W")) :=
  (predict_time_spec c3store "W").1 (by decide)

/-- C9: round trip — with no sessions the "Writing" prediction is the
30-minute default, the created task stores it as `predicted_minutes`, and
after completing that task with one logged 60-minute session the
"Writing" prediction becomes 60. -/
theorem predict_roundtrip :
    predict_time Store.empty "Writing" = 30 ∧
    (new_task Store.empty "Essay" "" "Writing" "High" 0 "None" 0).toOption
      = some rtSt1 ∧
    rtSt1.tasks.map (fun t => t.predicted_minutes) = [30] ∧
    (complete rtSt1 1 (some 60) 5).toOption = some rtSt2 ∧
    predict_time rtSt2 "Writing" = 60 := by
  refine ⟨by decide, by decide, by decide, by decide, by decide⟩

/-- C7: `pom_stop` always clears the Timer State; with no active timer it
is a no-op apart from that clearing; with `save = false` nothing is
logged; with `save = true` and an active timer exactly one session is
appended, starting at the timer's recorded start, ending now, with
duration `max 1` of the elapsed minutes. -/
theorem pom_stop_spec (s : State) (save : Bool) (now : ℤ) :
    ((pom_stop s save now).1.pomTask = none ∧
     (pom_stop s save now).1.pomStart = none) ∧
    (s.pomTask = none ∨ s.pomStart = none →
      pom_stop s save now = ({ s with pomTask := none, pomStart := none }, none)) ∧
    (save = false →
      pom_stop s save now = ({ s with pomTask := none, pomStart := none }, none)) ∧
    (∀ i t0, save = true → s.pomTask = some i → i ≠ 0 →
      s.pomStart = some (.valid t0) →
      pom_stop s save now = ({ s with
        pomTask := none, pomStart := none,
        store := { s.store with
          sessions := s.store.sessions ++
            [⟨s.store.nextSessionId, i, .valid t0, .valid now,
              max 1 (((now - t0 : ℤ) : ℚ) / 60)⟩],
          nextSessionId := s.store.nextSessionId + 1 } }, none)) := by
  refine ⟨?_, ?_, ?_, ?_⟩
  · rw [pom_stop]
    split
    · exact ⟨rfl, rfl⟩
    · rcases h1 : s.pomTask with _ | i <;> rcases h2 : s.pomStart with _ | ts <;>
        simp [h1, h2]
      rcases h3 : fromisoformat ts with _ | t0 <;> simp [h3]
  · intro h
    rw [pom_stop]
    rcases h with h | h <;> simp [h, truthyTask, truthyStart]
  · intro h
    rw [pom_stop]
    simp [h]
  · intro i t0 hsave hid hne hstart
    rw [pom_stop]
    simp [hsave, hid, hstart, truthyTask, truthyStart, hne, fromisoformat]

theorem rhe_cases (q : ℚ) : rhe q = ⌊q⌋ ∨ (rhe q = ⌊q⌋ + 1 ∧ ⌊q⌋ < ⌈q⌉) := by
  have hceil : ¬(q - ⌊q⌋ < 1/2) → ⌊q⌋ < ⌈q⌉ := by
    intro h
    have hfrac : (1:ℚ)/2 ≤ q - ⌊q⌋ := le_of_not_lt h
    have hpos : (⌊q⌋ : ℚ) < q := by linarith
    have h1 : q ≤ (⌈q⌉ : ℚ) := Int.le_ceil q
    exact_mod_cast lt_of_lt_of_le hpos h1
  unfold rhe
  split
  · exact Or.inl rfl
  · next h =>
    split
    · exact Or.inr ⟨rfl, hceil h⟩
    · split
      · exact Or.inl rfl
      · exact Or.inr ⟨rfl, hceil h⟩

theorem round1_nonneg (q : ℚ) (h : 0 ≤ q) : 0 ≤ round1 q := by
  unfold round1
  apply div_nonneg _ (by norm_num)
  have h1 : (0:ℤ) ≤ ⌊q * 10⌋ := Int.le_floor.mpr (by push_cast; positivity)
  have h2 : (0:ℤ) ≤ rhe (q * 10) := by
    rcases rhe_cases (q * 10) with hc | ⟨hc, _⟩ <;> omega
  exact_mod_cast h2

theorem round1_le (q : ℚ) (n : ℤ) (h : q ≤ n) : round1 q ≤ n := by
  unfold round1
  rw [div_le_iff₀ (by norm_num : (0:ℚ) < 10)]
  have h10 : q * 10 ≤ ((n * 10 : ℤ) : ℚ) := by push_cast; linarith
  have hceil : ⌈q * 10⌉ ≤ n * 10 := Int.ceil_le.mpr h10
  have hfloor : ⌊q * 10⌋ ≤ n * 10 := le_trans (Int.floor_le_ceil _) hceil
  have h2 : rhe (q * 10) ≤ n * 10 := by
    rcases rhe_cases (q * 10) with hc | ⟨hc, hlt⟩ <;> omega
  exact_mod_cast h2

theorem score_bounds (m : ℚ) (hm : 0 ≤ m) : 0 ≤ score m ∧ score m ≤ 120 := by
  constructor
  · exact round1_nonneg _ (le_min (by positivity) (by norm_num))
  · have h2 : min (m / 240 * 100) 120 ≤ ((120 : ℤ) : ℚ) := by
      have := min_le_right (m / 240 * 100) (120 : ℚ)
      push_cast
      linarith
    have := round1_le _ 120 h2
    exact_mod_cast this

theorem sessionDate_eq (w : WorkSession)
    (h : (fromisoformat w.start_time).isSome = true) :
    sessionDate w = some (sDate w) := by
  rcases ho : fromisoformat w.start_time with _ | t
  · rw [ho] at h; cases h
  · simp [sessionDate, sDate, ho]

theorem dailyRows_sorted (st : Store) :
    (dailyRows st).Sorted (fun a b => b.1 ≤ a.1) := by
  unfold dailyRows
  rw [List.Sorted, List.pairwise_map]
  exact List.sorted_insertionSort _ _

theorem mem_dailyRows (st : Store) (r : ℤ × ℚ × ℚ) :
    r ∈ dailyRows st ↔ r.1 ∈ st.sessions.map sDate ∧
      r = (r.1, dayTotal st r.1, score (dayTotal st r.1)) := by
  unfold dailyRows
  rw [List.mem_map]
  constructor
  · rintro ⟨d, hd, rfl⟩
    have hd2 : d ∈ (st.sessions.map sDate).dedup :=
      ((List.perm_insertionSort _ _).mem_iff).mp hd
    exact ⟨List.mem_dedup.mp hd2, rfl⟩
  · rintro ⟨hd, hr⟩
    refine ⟨r.1, ?_, hr.symm⟩
    exact ((List.perm_insertionSort _ _).mem_iff).mpr (List.mem_dedup.mpr hd)

/-- C6: `daily_scores` (when its start times parse) groups sessions by the
calendar date of their start, sums minutes per date, scores each date by
`round1 (min (total/240*100) 120)`, keeps every score within `[0, 120]`
for the nonnegative durations the engine writes, sorts rows by date with
the most recent first, and yields no rows exactly when there are no
sessions. -/
theorem daily_scores_spec (st : Store) (rows : List (ℤ × ℚ × ℚ))
    (hpos : ∀ w ∈ st.sessions, 0 ≤ w.duration_minutes)
    (h : daily_scores st = some rows) :
    (st.sessions = [] → rows = []) ∧
    rows.Sorted (fun a b => b.1 ≤ a.1) ∧
    (∀ r ∈ rows, 0 ≤ r.2.2 ∧ r.2.2 ≤ 120) ∧
    (∀ r ∈ rows,
      (∃ w ∈ st.sessions, sessionDate w = some r.1) ∧
      r.2.1 = ((st.sessions.filter (fun w => sessionDate w = some r.1)).map
        (fun w => w.duration_minutes)).sum ∧
      r.2.2 = round1 (min (r.2.1 / 240 * 100) 120)) ∧
    (∀ w ∈ st.sessions, ∀ d, sessionDate w = some d → ∃ r ∈ rows, r.1 = d) := by
  by_cases hemp : st.sessions.isEmpty
  · rw [daily_scores, if_pos hemp] at h
    obtain rfl : ([] : List (ℤ × ℚ × ℚ)) = rows := Option.some_inj.mp h
    have hnil : st.sessions = [] := List.isEmpty_iff.mp hemp
    refine ⟨fun _ => rfl, List.sorted_nil, by simp, by simp, ?_⟩
    intro w hw
    rw [hnil] at hw
    cases hw
  · rw [daily_scores, if_neg hemp] at h
    by_cases hall : st.sessions.all (fun w => (fromisoformat w.start_time).isSome)
      = true
    swap
    · rw [if_neg hall] at h; cases h
    rw [if_pos hall] at h
    obtain rfl : dailyRows st = rows := Option.some_inj.mp h
    have hall' : ∀ w ∈ st.sessions, (fromisoformat w.start_time).isSome = true :=
      fun w hw => List.all_eq_true.mp hall w hw
    have hdate : ∀ w ∈ st.sessions, sessionDate w = some (sDate w) :=
      fun w hw => sessionDate_eq w (hall' w hw)
    refine ⟨?_, dailyRows_sorted st, ?_, ?_, ?_⟩
    · intro hnil
      rw [hnil] at hemp
      exact absurd rfl hemp
    · intro r hr
      obtain ⟨hd, hshape⟩ := (mem_dailyRows st r).mp hr
      have hm : 0 ≤ dayTotal st r.1 := by
        apply List.sum_nonneg
        intro x hx
        rcases List.mem_map.mp hx with ⟨w, hw, rfl⟩
        exact hpos w (List.mem_filter.mp hw).1
      have hb := score_bounds (dayTotal st r.1) hm
      rw [hshape]
      exact hb
    · intro r hr
      obtain ⟨hd, hshape⟩ := (mem_dailyRows st r).mp hr
      rcases List.mem_map.mp hd with ⟨w, hw, hwd⟩
      have hfilter : st.sessions.filter (fun w => sessionDate w = some r.1) =
          st.sessions.filter (fun w => sDate w = r.1) := by
        apply List.filter_congr
        intro u hu
        rw [hdate u hu]
        simp
      refine ⟨⟨w, hw, by rw [hdate w hw, hwd]⟩, ?_, ?_⟩
      · rw [hfilter, hshape]
        exact rfl
      · rw [hshape]
        exact rfl
    · intro w hw d hd
      have hsd : sDate w = d := by
        have := hdate w hw
        rw [hd] at this
        exact (Option.some_inj.mp this).symm
      refine ⟨(d, dayTotal st d, score (dayTotal st d)), ?_, rfl⟩
      apply (mem_dailyRows st _).mpr
      exact ⟨List.mem_map.mpr ⟨w, hw, hsd⟩, rfl⟩

/-- C6 witness: 480 minutes on day 0 and 120 minutes on day 1 give the
rows `[(1, 120, 50), (0, 480, 120)]` — capped at 120, most recent first. -/
theorem daily_scores_spec_witness :
    (c6store.sessions = [] → ([((1:ℤ), (120:ℚ), (50:ℚ)), (0, 480, 120)] :
        List (ℤ × ℚ × ℚ)) = []) ∧
    ([((1:ℤ), (120:ℚ), (50:ℚ)), (0, 480, 120)] :
        List (ℤ × ℚ × ℚ)).Sorted (fun a b => b.1 ≤ a.1) ∧
    (∀ r ∈ ([((1:ℤ), (120:ℚ), (50:ℚ)), (0, 480, 120)] : List (ℤ × ℚ × ℚ)),
      0 ≤ r.2.2 ∧ r.2.2 ≤ 120) ∧
    (∀ r ∈ ([((1:ℤ), (120:ℚ), (50:ℚ)), (0, 480, 120)] : List (ℤ × ℚ × ℚ)),
      (∃ w ∈ c6store.sessions, sessionDate w = some r.1) ∧
      r.2.1 = ((c6store.sessions.filter
        (fun w => sessionDate w = some r.1)).map
          (fun w => w.duration_minutes)).sum ∧
      r.2.2 = round1 (min (r.2.1 / 240 * 100) 120)) ∧
    (∀ w ∈ c6store.sessions, ∀ d, sessionDate w = some d →
      ∃ r ∈ ([((1:ℤ), (120:ℚ), (50:ℚ)), (0, 480, 120)] : List (ℤ × ℚ × ℚ)),
        r.1 = d) :=
  daily_scores_spec c6store [(1, 120, 50), (0, 480, 120)]
    (by decide) (by decide)

theorem inv_append_pending (st : Store) (t : Task) (ss : List WorkSession)
    (k : ℕ) (h : Inv st) (hid : t.id = st.nextTaskId)
    (hst : t.status = "Pending") (hc : t.completed_at = none) :
    Inv ⟨st.tasks ++ [t], ss, st.nextTaskId + 1, k⟩ := by
  obtain ⟨hA, hC, hD⟩ := h
  refine ⟨?_, ?_, ?_⟩
  · intro u hu
    rcases List.mem_append.mp hu with hu | hu
    · exact hA u hu
    · rw [List.mem_singleton.mp hu]
      exact ⟨Or.inl hst, by rw [hc, hst]; simp⟩
  · intro u hu
    rcases List.mem_append.mp hu with hu | hu
    · exact lt_trans (hC u hu) (Nat.lt_succ_self _)
    · rw [List.mem_singleton.mp hu, hid]
      exact Nat.lt_succ_self _
  · rw [List.map_append]
    apply List.Nodup.append hD (List.nodup_singleton _)
    intro a ha hb
    rcases List.mem_map.mp ha with ⟨u, hu, rfl⟩
    simp only [List.mem_singleton] at hb
    have h1 := hC u hu
    rw [hb, hid] at h1
    exact lt_irrefl _ h1

theorem inv_sessions_irrel (st : Store) (ss : List WorkSession) (k : ℕ)
    (h : Inv st) : Inv ⟨st.tasks, ss, st.nextTaskId, k⟩ :=
  ⟨h.1, h.2.1, h.2.2⟩

theorem inv_updTasks (st : Store) (i : ℕ) (now : ℤ) (ss : List WorkSession)
    (k : ℕ) (h : Inv st) :
    Inv ⟨st.tasks.map (updTask i now), ss, st.nextTaskId, k⟩ := by
  obtain ⟨hA, hC, hD⟩ := h
  refine ⟨?_, ?_, ?_⟩
  · intro u hu
    rcases List.mem_map.mp hu with ⟨v, hv, rfl⟩
    have hv2 := hA v hv
    unfold updTask
    split
    · exact ⟨Or.inr rfl, by simp⟩
    · exact hv2
  · intro u hu
    rcases List.mem_map.mp hu with ⟨v, hv, rfl⟩
    rw [updTask_id]
    exact hC v hv
  · rw [map_updTask_ids]
    exact hD

theorem recur_create_shape (st : Store) (old : Task) (ty : String) (now : ℤ) :
    recur_create st old ty now = st ∨
    ∃ x, x.status = "Pending" ∧ x.completed_at = none ∧
      x.id = st.nextTaskId ∧
      recur_create st old ty now =
        { st with tasks := st.tasks ++ [x],
                  nextTaskId := st.nextTaskId + 1 } := by
  unfold recur_create
  rcases hdue : old.due_at with _ | ds
  · exact Or.inl rfl
  · dsimp only
    rcases hp : fromisoformat ds with _ | t
    · exact Or.inl rfl
    · exact Or.inr ⟨_, rfl, rfl, rfl, rfl⟩

theorem inv_recur_create (st : Store) (old : Task) (ty : String) (now : ℤ)
    (h : Inv st) : Inv (recur_create st old ty now) := by
  rcases recur_create_shape st old ty now with he | ⟨x, hst, hc, hid, he⟩
  · rw [he]; exact h
  · rw [he]
    exact inv_append_pending st x st.sessions st.nextSessionId h hid hst hc

theorem new_task_ok_shape (st st' : Store) (title desc cat priority : String)
    (due : ℤ) (rec : String) (now : ℤ)
    (hok : new_task st title desc cat priority due rec now = .ok st') :
    ∃ x, x.status = "Pending" ∧ x.completed_at = none ∧
      x.id = st.nextTaskId ∧
      st' = { st with tasks := st.tasks ++ [x],
                      nextTaskId := st.nextTaskId + 1 } := by
  unfold new_task at hok
  dsimp only at hok
  by_cases ht : strip title = ""
  · rw [if_pos ht] at hok
    cases hok
  · rw [if_neg ht] at hok
    injection hok with hok
    exact ⟨_, rfl, rfl, rfl, hok.symm⟩

theorem complete_ok_shape (st st' : Store) (i : ℕ) (m : Option ℚ) (now : ℤ)
    (hok : complete st i m now = .ok st') :
    ∃ ss k,
      st' = ⟨st.tasks.map (updTask i now), ss, st.nextTaskId, k⟩ ∨
      ∃ x, x.status = "Pending" ∧ x.completed_at = none ∧
        x.id = st.nextTaskId ∧
        st' = ⟨st.tasks.map (updTask i now) ++ [x], ss,
          st.nextTaskId + 1, k⟩ := by
  rcases hlook : lookupTask st.tasks i with _ | row
  · simp [complete, hlook] at hok
  · simp only [complete, hlook] at hok
    injection hok with hok
    obtain ⟨ss, k, hw⟩ := completeWrites_shape st i m now
    rcases recur_create_shape (completeWrites st i m now) row row.recurrence
        now with he | ⟨x, hxst, hxc, hxid, he⟩
    · refine ⟨ss, k, Or.inl ?_⟩
      rw [← hok]
      split
      · rw [he, hw]
      · rw [hw]
    · by_cases hrec : row.recurrence ≠ "None"
      · refine ⟨ss, k, Or.inr ⟨x, hxst, hxc, by rw [hxid, hw], ?_⟩⟩
        rw [← hok, if_pos hrec, he, hw]
      · refine ⟨ss, k, Or.inl ?_⟩
        rw [← hok, if_neg hrec, hw]

theorem mem_same_id (st : Store) (hInv : Inv st) (t t' : Task)
    (ht : t ∈ st.tasks) (ht' : t' ∈ st.tasks) (hid : t'.id = t.id) : t' = t :=
  List.inj_on_of_nodup_map hInv.2.2 ht' ht hid

theorem pom_stop_store_shape (s : State) (save : Bool) (now : ℤ) :
    ∃ ss k, (pom_stop s save now).1.store =
      ⟨s.store.tasks, ss, s.store.nextTaskId, k⟩ := by
  rw [pom_stop]
  split
  · exact ⟨s.store.sessions, s.store.nextSessionId, rfl⟩
  · rcases h1 : s.pomTask with _ | i <;> rcases h2 : s.pomStart with _ | ts <;>
      try exact ⟨s.store.sessions, s.store.nextSessionId, rfl⟩
    dsimp only
    rcases h3 : fromisoformat ts with _ | t0
    · exact ⟨s.store.sessions, s.store.nextSessionId, rfl⟩
    · exact ⟨_, _, rfl⟩

theorem inv_applyOp (s : State) (op : Op) (now : ℤ) (h : Inv s.store) :
    Inv (applyOp s op now).store := by
  cases op with
  | newTask title desc cat priority due rec =>
    unfold applyOp
    dsimp only
    rcases hok : new_task s.store title desc cat priority due rec now
        with e | st
    · exact h
    · obtain ⟨x, hst, hc, hid, rfl⟩ :=
        new_task_ok_shape s.store st title desc cat priority due rec now hok
      exact inv_append_pending s.store x _ _ h hid hst hc
  | completeTask i m =>
    unfold applyOp
    dsimp only
    rcases hok : complete s.store i m now with e | st
    · exact h
    · obtain ⟨ss, k, hsh⟩ := complete_ok_shape s.store st i m now hok
      rcases hsh with rfl | ⟨x, hxst, hxc, hxid, rfl⟩
      · exact inv_updTasks s.store i now ss k h
      · exact inv_append_pending ⟨s.store.tasks.map (updTask i now), ss,
          s.store.nextTaskId, k⟩ x ss k
          (inv_updTasks s.store i now ss k h) hxid hxst hxc
  | pomStart i => exact h
  | pomStop sv =>
    obtain ⟨ss, k, hsh⟩ := pom_stop_store_shape s sv now
    unfold applyOp
    dsimp only
    rw [hsh]
    exact inv_sessions_irrel s.store ss k h

theorem reachable_inv (s : State) (h : Reachable s) : Inv s.store := by
  induction h with
  | init =>
    exact ⟨fun t ht => absurd ht (List.not_mem_nil t),
      fun t ht => absurd ht (List.not_mem_nil t), List.nodup_nil⟩
  | step s op now _ ih => exact inv_applyOp s op now ih

theorem updTask_status (i : ℕ) (now : ℤ) (t : Task)
    (hc : t.status = "Completed") :
    (updTask i now t).status = "Completed" := by
  unfold updTask
  split
  · rfl
  · exact hc

theorem completed_stays (s : State) (op : Op) (now : ℤ) (h : Inv s.store) :
    ∀ t ∈ s.store.tasks, t.status = "Completed" →
      ∀ t' ∈ (applyOp s op now).store.tasks, t'.id = t.id →
        t'.status = "Completed" := by
  intro t ht hc t' ht' hid
  cases op with
  | newTask title desc cat priority due rec =>
    revert ht'
    unfold applyOp
    dsimp only
    rcases hok : new_task s.store title desc cat priority due rec now
        with e | st
    · intro ht'
      rw [mem_same_id s.store h t t' ht ht' hid]
      exact hc
    · obtain ⟨x, hxst, hxc, hxid, rfl⟩ :=
        new_task_ok_shape s.store st title desc cat priority due rec now hok
      intro ht'
      rcases List.mem_append.mp ht' with h1 | h1
      · rw [mem_same_id s.store h t t' ht h1 hid]
        exact hc
      · rw [List.mem_singleton.mp h1] at hid
        have := h.2.1 t ht
        rw [hxid] at hid
        omega
  | completeTask i m =>
    revert ht'
    unfold applyOp
    dsimp only
    rcases hok : complete s.store i m now with e | st
    · intro ht'
      rw [mem_same_id s.store h t t' ht ht' hid]
      exact hc
    · obtain ⟨ss, k, hsh⟩ := complete_ok_shape s.store st i m now hok
      rcases hsh with rfl | ⟨x, hxst, hxc, hxid, rfl⟩
      · intro ht'
        rcases List.mem_map.mp ht' with ⟨u, hu, rfl⟩
        rw [updTask_id] at hid
        rw [mem_same_id s.store h t u ht hu hid]
        exact updTask_status i now t hc
      · intro ht'
        rcases List.mem_append.mp ht' with h1 | h1
        · rcases List.mem_map.mp h1 with ⟨u, hu, rfl⟩
          rw [updTask_id] at hid
          rw [mem_same_id s.store h t u ht hu hid]
          exact updTask_status i now t hc
        · rw [List.mem_singleton.mp h1] at hid
          have := h.2.1 t ht
          rw [hxid] at hid
          omega
  | pomStart i =>
    rw [mem_same_id s.store h t t' ht ht' hid]
    exact hc
  | pomStop sv =>
    revert ht'
    obtain ⟨ss, k, hsh⟩ := pom_stop_store_shape s sv now
    unfold applyOp
    dsimp only
    rw [hsh]
    intro ht'
    rw [mem_same_id s.store h t t' ht ht' hid]
    exact hc

theorem recur_create_sessions (st : Store) (old : Task) (ty : String)
    (now : ℤ) : (recur_create st old ty now).sessions = st.sessions := by
  rcases recur_create_shape st old ty now with he | ⟨x, _, _, _, he⟩ <;> rw [he]

theorem completeWrites_sessions (st : Store) (i : ℕ) (m : Option ℚ)
    (now : ℤ) :
    (completeWrites st i m now).sessions = st.sessions ∨
    ∃ q, 0 < q ∧ (completeWrites st i m now).sessions =
      st.sessions ++ [⟨st.nextSessionId, i, .valid now, .valid now, q⟩] := by
  unfold completeWrites
  rcases m with _ | q
  · exact Or.inl rfl
  · dsimp only
    by_cases hq : 0 < q
    · exact Or.inr ⟨q, hq, by rw [if_pos hq]⟩
    · exact Or.inl (by rw [if_neg hq])

theorem pom_stop_sessions (s : State) (save : Bool) (now : ℤ) :
    (pom_stop s save now).1.store.sessions = s.store.sessions ∨
    ∃ w, 1 ≤ w.duration_minutes ∧
      (pom_stop s save now).1.store.sessions = s.store.sessions ++ [w] := by
  rw [pom_stop]
  split
  · exact Or.inl rfl
  · rcases h1 : s.pomTask with _ | i <;> rcases h2 : s.pomStart with _ | ts <;>
      try exact Or.inl rfl
    dsimp only
    rcases h3 : fromisoformat ts with _ | t0
    · exact Or.inl rfl
    · exact Or.inr ⟨_, le_max_left 1 _, rfl⟩

/-- Every reachable store only holds sessions with positive-or-one-floored
durations: `daily_scores_spec`'s nonnegativity hypothesis holds in every
state the engine can reach. -/
theorem reachable_sessions_nonneg (s : State) (h : Reachable s) :
    ∀ w ∈ s.store.sessions, 0 ≤ w.duration_minutes := by
  induction h with
  | init => intro w hw; cases hw
  | step s op now _ ih =>
    intro w hw
    cases op with
    | newTask title desc cat priority due rec =>
      revert hw
      unfold applyOp
      dsimp only
      rcases hok : new_task s.store title desc cat priority due rec now
          with e | st
      · exact fun hw => ih w hw
      · obtain ⟨x, _, _, _, rfl⟩ :=
          new_task_ok_shape s.store st title desc cat priority due rec now hok
        exact fun hw => ih w hw
    | completeTask i m =>
      revert hw
      unfold applyOp
      dsimp only
      rcases hok : complete s.store i m now with e | st
      · exact fun hw => ih w hw
      · rcases hlook : lookupTask s.store.tasks i with _ | row
        · simp [complete, hlook] at hok
        · simp only [complete, hlook] at hok
          injection hok with hok
          have hsess : st.sessions =
              (completeWrites s.store i m now).sessions := by
            rw [← hok]
            split
            · rw [recur_create_sessions]
            · rfl
          intro hw
          rw [hsess] at hw
          rcases completeWrites_sessions s.store i m now with he | ⟨q, hq, he⟩
          · rw [he] at hw
            exact ih w hw
          · rw [he] at hw
            rcases List.mem_append.mp hw with h1 | h1
            · exact ih w h1
            · rw [List.mem_singleton.mp h1]
              exact le_of_lt hq
    | pomStart i => exact ih w hw
    | pomStop sv =>
      revert hw
      unfold applyOp
      dsimp only
      rcases pom_stop_sessions s sv now with he | ⟨x, hx, he⟩
      · rw [he]
        exact fun hw => ih w hw
      · rw [he]
        intro hw
        rcases List.mem_append.mp hw with h1 | h1
        · exact ih w h1
        · rw [List.mem_singleton.mp h1]
          exact le_trans (by norm_num) hx

/-- C8: in every reachable state every task's status is Pending or
Completed with `completed_at` set exactly on Completed rows, and a
Completed task stays Completed (with the same id) across any further
engine operation. -/
theorem task_status_invariant (s : State) (hs : Reachable s) :
    (∀ t ∈ s.store.tasks,
      (t.status = "Pending" ∨ t.status = "Completed") ∧
      (t.completed_at.isSome ↔ t.status = "Completed")) ∧
    ∀ op now, ∀ t ∈ s.store.tasks, t.status = "Completed" →
      ∀ t' ∈ (applyOp s op now).store.tasks, t'.id = t.id →
        t'.status = "Completed" := by
  have h := reachable_inv s hs
  exact ⟨h.1, fun op now => completed_stays s op now h⟩

/-- C8 witness: the reachable state holding one completed task. -/
theorem task_status_invariant_witness :
    (∀ t ∈ c8state.store.tasks,
      (t.status = "Pending" ∨ t.status = "Completed") ∧
      (t.completed_at.isSome ↔ t.status = "Completed")) ∧
    ∀ op now, ∀ t ∈ c8state.store.tasks, t.status = "Completed" →
      ∀ t' ∈ (applyOp c8state op now).store.tasks, t'.id = t.id →
        t'.status = "Completed" :=
  task_status_invariant c8state
    (Reachable.step _ (.completeTask 1 none) 5
      (Reachable.step _ (.newTask "A" "" "" "High" 0 "None") 0 Reachable.init))

/-- C7 witness: stopping a timer started at time 0 at time 0 (zero elapsed
seconds) with `save = true` records a session of exactly one minute. -/
theorem pom_stop_spec_witness :
    pom_stop c7state true 0 = ({ c7state with
      pomTask := none, pomStart := none,
      store := { c7state.store with
        sessions := c7state.store.sessions ++
          [⟨c7state.store.nextSessionId, 1, .valid 0, .valid 0,
            max 1 (((0 - 0 : ℤ) : ℚ) / 60)⟩],
        nextSessionId := c7state.store.nextSessionId + 1 } }, none) :=
  (pom_stop_spec c7state true 0).2.2.2 1 0 rfl rfl (by decide) rfl

end FSD
